import Mathlib

/-!
Verification of the core logic of an auto-filter chat bot (`src/main.py`):
the `AdvancedStorage` persistence layer (local JSON branch), the keyword
matching and replay engine of `keyword_match_handler`, and the broadcast
delivery loop of `broadcast_handler`, shallowly embedded in Lean.

Modelling conventions:
* The local (JSON fallback) branch of every `AdvancedStorage` method is
  embedded; the remote branch is declared by the source to have the same
  observable semantics.
* Python dicts become insertion-ordered association lists (Python dicts
  iterate in insertion order, which the matching and broadcast loops rely
  on).
* Timestamps (`time.time()`) are passed explicitly as naturals; user and
  group ids are naturals (the source stores `str(user_id)`, a bijective
  decimal encoding of the id).
* Transport calls (`copy_message`, `replied_msg.copy`) are driven by an
  outcome oracle describing, per target/payload, whether the provider
  reports success, a rate limit (`FloodWait` with a wait time), a
  recipient-unreachable error (`UserIsBlocked`/`PeerIdInvalid`), or any
  other error.  Each loop iteration performs exactly one transport call,
  so an oracle keyed by target/payload is faithful.
* Word characters are the ASCII fragment of the regex class `\w`
  (letters, digits, underscore), and `pyLower` is `str.lower()` on the
  ASCII fragment.
-/

namespace FilterBot

/-- ASCII word character: the ASCII fragment of the regex class `\w`
used by the word boundary `\b` in `keyword_match_handler`. -/
def isWordChar (c : Char) : Bool := c.isAlphanum || c == '_'

/-- `str.lower()` (ASCII fragment): lower-case every character. -/
def pyLower (s : String) : String := ⟨s.data.map Char.toLower⟩

/-- One stored payload reference: the `file_data` dict built in
`add_filter_handler` and stamped in `AdvancedStorage.add_filter`. -/
structure FileData where
  chat_id : Int
  message_id : Nat
  added_by : Int
  file_type : String
  added_at : Nat
  deriving DecidableEq

/-- One stored user record, local-backend layout of
`AdvancedStorage.add_user`. -/
structure UserInfo where
  last_seen : Nat
  username : String
  first_name : String
  search_count : Nat
  join_date : Nat
  deriving DecidableEq

/-- One stored group record, local-backend layout of
`AdvancedStorage.add_group`. -/
structure GroupInfo where
  title : String
  username : String
  members_count : Nat
  last_active : Nat
  join_date : Nat
  deriving DecidableEq

/-- The in-memory state of `AdvancedStorage` (local JSON branch). -/
structure Storage where
  local_filters : List (String × List FileData)
  local_users : List (Nat × UserInfo)
  local_groups : List (Nat × GroupInfo)
  local_stats : List (String × Nat)
  deriving DecidableEq

/-- Python dict lookup `d.get(k)`. -/
def lookupA {α β : Type} [BEq α] : List (α × β) → α → Option β
  | [], _ => none
  | p :: es, k => if p.1 == k then some p.2 else lookupA es k

/-- Python dict membership `k in d`. -/
def hasKey {α β : Type} [BEq α] (l : List (α × β)) (k : α) : Bool :=
  l.any (fun p => p.1 == k)

/-- Python dict assignment `d[k] = v`: update in place when the key is
present (iteration position kept), otherwise append at the end. -/
def setAssoc {α β : Type} [BEq α] (l : List (α × β)) (k : α) (v : β) : List (α × β) :=
  if hasKey l k then l.map (fun p => if p.1 == k then (k, v) else p)
  else l ++ [(k, v)]

/-- Python dict deletion `del d[k]`. -/
def delAssoc {α β : Type} [BEq α] (l : List (α × β)) (k : α) : List (α × β) :=
  l.filter (fun p => !(p.1 == k))

/-- `AdvancedStorage.add_filter` (local branch): lower-case the keyword,
stamp `added_at`, append the payload to the keyword's list (creating it
when absent).  Note: the keyword is lower-cased but not trimmed, and an
empty keyword is not rejected here — trimming happens in the command
handlers before this call. -/
def add_filter (s : Storage) (keyword : String) (fd : FileData) (now : Nat) : Storage :=
  let kw := pyLower keyword
  let fd' := { fd with added_at := now }
  let old := (lookupA s.local_filters kw).getD []
  { s with local_filters := setAssoc s.local_filters kw (old ++ [fd']) }

/-- `AdvancedStorage.get_all_filters` (local branch). -/
def get_all_filters (s : Storage) : List (String × List FileData) := s.local_filters

/-- `AdvancedStorage.delete_filter` (local branch): lower-case, delete if
present, report whether the keyword existed. -/
def delete_filter (s : Storage) (keyword : String) : Storage × Bool :=
  let kw := pyLower keyword
  if hasKey s.local_filters kw then
    ({ s with local_filters := delAssoc s.local_filters kw }, true)
  else (s, false)

/-- The `user_data` dict passed to `add_user`: at every call site
(`start_command`, `keyword_match_handler`) it carries exactly
`username` and `first_name`, never `search_count`. -/
structure UserData where
  username : String
  first_name : String
  deriving DecidableEq

/-- `AdvancedStorage.add_user` (local branch), as invoked from the
handlers: `last_seen`/`username`/`first_name` are refreshed; for an
existing user `search_count` and `join_date` are carried over from the
stored record; a new user gets `search_count` 0 and `join_date` now. -/
def add_user (s : Storage) (uid : Nat) (d : UserData) (now : Nat) : Storage :=
  match lookupA s.local_users uid with
  | some old =>
      let info : UserInfo :=
        { last_seen := now, username := d.username, first_name := d.first_name,
          search_count := old.search_count, join_date := old.join_date }
      { s with local_users := setAssoc s.local_users uid info }
  | none =>
      let info : UserInfo :=
        { last_seen := now, username := d.username, first_name := d.first_name,
          search_count := 0, join_date := now }
      { s with local_users := setAssoc s.local_users uid info }

/-- `AdvancedStorage.get_user_info` (local branch). -/
def get_user_info (s : Storage) (uid : Nat) : Option UserInfo :=
  lookupA s.local_users uid

/-- `AdvancedStorage.increment_user_search` (local branch): bump
`search_count` when the user exists, otherwise do nothing. -/
def increment_user_search (s : Storage) (uid : Nat) : Storage :=
  match lookupA s.local_users uid with
  | some u =>
      let info : UserInfo := { u with search_count := u.search_count + 1 }
      { s with local_users := setAssoc s.local_users uid info }
  | none => s

/-- `AdvancedStorage.get_all_users` (local branch): the dict keys, in
insertion order. -/
def get_all_users (s : Storage) : List Nat := s.local_users.map Prod.fst

/-- `AdvancedStorage.remove_user` (local branch): delete if present,
silently do nothing otherwise. -/
def remove_user (s : Storage) (uid : Nat) : Storage :=
  if hasKey s.local_users uid then
    { s with local_users := delAssoc s.local_users uid }
  else s

/-- `AdvancedStorage.add_group` (local branch). -/
def add_group (s : Storage) (gid : Nat) (title username : String)
    (members_count now : Nat) : Storage :=
  match lookupA s.local_groups gid with
  | some old =>
      let info : GroupInfo :=
        { title := title, username := username, members_count := members_count,
          last_active := now, join_date := old.join_date }
      { s with local_groups := setAssoc s.local_groups gid info }
  | none =>
      let info : GroupInfo :=
        { title := title, username := username, members_count := members_count,
          last_active := now, join_date := now }
      { s with local_groups := setAssoc s.local_groups gid info }

/-- `AdvancedStorage.increment_stat` (local branch). -/
def increment_stat (s : Storage) (name : String) : Storage :=
  { s with local_stats := setAssoc s.local_stats name ((lookupA s.local_stats name).getD 0 + 1) }

/-- Fresh state from `AdvancedStorage.__init__` with no JSON files on
disk; `t0` is the process start time `bot_started`. -/
def initStorage (t0 : Nat) : Storage :=
  { local_filters := [], local_users := [], local_groups := [],
    local_stats := [("total_searches", 0), ("total_broadcasts", 0), ("bot_started", t0)] }

/-- Whether the character at position `p` of `text` is a word character
(`false` past the end of the text). -/
def wordAt (text : List Char) (p : Nat) : Bool :=
  match text.get? p with
  | some c => isWordChar c
  | none => false

/-- Python regex `\b` (word boundary) holds at position `p` of `text`:
exactly one of the characters around the position is a word character
(positions outside the text count as non-word). -/
def boundaryAt (text : List Char) (p : Nat) : Bool :=
  (if p = 0 then false else wordAt text (p - 1)) != wordAt text p

/-- The (`re.escape`d, hence literal) keyword occurs at position `i`. -/
def occursAt (kw text : List Char) (i : Nat) : Bool :=
  decide ((text.drop i).take kw.length = kw)

/-- The pattern `\b kw \b` matches `text` at position `i`. -/
def wordMatchAt (kw text : List Char) (i : Nat) : Bool :=
  boundaryAt text i && occursAt kw text i && boundaryAt text (i + kw.length)

/-- `re.search(r'\b' + re.escape(kw) + r'\b', text)` succeeds: the
bounded pattern matches at some position. -/
def regexWordSearch (kw text : List Char) : Bool :=
  (List.range (text.length + 1)).any (fun i => wordMatchAt kw text i)

/-- Modelled from the spec's words, for comparison with the source's
regex semantics: a whole-word occurrence of `kw` in `text` is an
occurrence that is neither preceded nor followed by a word character —
i.e. the keyword is not a substring of a larger token. -/
def wholeWordOccursAt (kw text : List Char) (i : Nat) : Bool :=
  occursAt kw text i && !(decide (0 < i) && wordAt text (i - 1)) && !(wordAt text (i + kw.length))

/-- The matching loop of `keyword_match_handler`: iterate over the
stored keywords in dict order, skip empty keywords, fire on a
`\b`-bounded regex match against the already lower-cased text. -/
def matchedKeywords (allFilters : List (String × List FileData)) (text : String) : List String :=
  (allFilters.map Prod.fst).filter
    (fun kw => decide (kw ≠ "") && regexWordSearch kw.data text.data)

/-- Transport outcome of one `copy_message` call in the replay loop. -/
inductive Outcome where
  | success
  | floodWait (seconds : Nat)
  | otherError
  deriving DecidableEq

/-- Observable events of the replay loop: the `copy_message` attempt for
payload index `idx` of a fired keyword, the `asyncio.sleep(0.5)`
anti-flood delay after a success, and the `asyncio.sleep(e.value)`
suspension after a `FloodWait`. -/
inductive REvent where
  | attempt (keyword : String) (idx : Nat)
  | antiflood
  | pause (seconds : Nat)
  deriving DecidableEq

/-- One iteration of the replay loop body for payload `i`: the copy
attempt, then the anti-flood sleep on success, the provider-specified
pause on `FloodWait`, and nothing extra on any other error (which is
only logged). -/
def iterEvents (kw : String) (o : Nat → Outcome) (i : Nat) : List REvent :=
  match o i with
  | .success => [.attempt kw i, .antiflood]
  | .floodWait d => [.attempt kw i, .pause d]
  | .otherError => [.attempt kw i]

/-- The replay loop `for file_data in files: try: copy_message ...` of
`keyword_match_handler`, with `o i` the transport outcome for the
payload at index `i` of `files`. -/
def replayEvents (kw : String) (o : Nat → Outcome) (files : List FileData) : List REvent :=
  (List.range files.length).flatMap (iterEvents kw o)

/-- The fan-out of `keyword_match_handler`: the first 5 matched keywords
(`matched_keywords[:5]`), and for each, the first 10 stored payloads
(`files_to_send[:10]`). -/
def fanoutEvents (allFilters : List (String × List FileData)) (matched : List String)
    (o : String → Nat → Outcome) : List REvent :=
  (matched.take 5).flatMap
    (fun kw => replayEvents kw (o kw) (((lookupA allFilters kw).getD []).take 10))

/-- The matching and fan-out stage of `keyword_match_handler`, common to
private and group chats: lower the text, read the filters once, match;
when at least one keyword fired, bump `total_searches` once and replay. -/
def matchAndReplay (s : Storage) (textRaw : String) (o : String → Nat → Outcome) :
    Storage × List REvent :=
  let text := pyLower textRaw
  let allF := get_all_filters s
  let matched := matchedKeywords allF text
  if matched = [] then (s, [])
  else (increment_stat s "total_searches", fanoutEvents allF matched o)

/-- An inbound private text message (in a private chat `message.chat.id`
is the sender's user id). -/
structure PrivateMessage where
  chat_id : Nat
  username : String
  first_name : String
  text : String

/-- `keyword_match_handler` on a private chat: register/refresh the
sender, bump the per-user search counter, then match and replay. -/
def keywordMatchPrivate (s : Storage) (m : PrivateMessage) (now : Nat)
    (o : String → Nat → Outcome) : Storage × List REvent :=
  let s1 := add_user s m.chat_id ⟨m.username, m.first_name⟩ now
  let s2 := increment_user_search s1 m.chat_id
  matchAndReplay s2 m.text o

/-- An inbound group text message. -/
structure GroupMessage where
  chat_id : Nat
  title : String
  username : String
  text : String

/-- `keyword_match_handler` on a group chat: register/refresh the group
(with the best-effort member count, 0 on failure), then match and
replay. -/
def keywordMatchGroup (s : Storage) (g : GroupMessage) (memberCount now : Nat)
    (o : String → Nat → Outcome) : Storage × List REvent :=
  let s1 := add_group s g.chat_id g.title g.username memberCount now
  matchAndReplay s1 g.text o

/-- Outcome of one `replied_msg.copy(user_id)` call in the broadcast
loop: success, recipient unreachable (`UserIsBlocked`/`PeerIdInvalid`),
rate limit (`FloodWait`), or any other error. -/
inductive BOutcome where
  | success
  | blocked
  | floodWait (seconds : Nat)
  | otherError
  deriving DecidableEq

/-- Observable events of the broadcast loop: the copy attempt for a
target, its successful completion, the `asyncio.sleep(0.05)` anti-flood
delay after a success, and the `asyncio.sleep(e.value)` suspension after
a `FloodWait`. -/
inductive BEvent where
  | attempt (uid : Nat)
  | delivered (uid : Nat)
  | antiflood
  | pause (seconds : Nat)
  deriving DecidableEq

def isSuccessB : BOutcome → Bool
  | .success => true
  | _ => false

def isBlockedB : BOutcome → Bool
  | .blocked => true
  | _ => false

/-- Outcomes the loop counts in `failed_count`: recipient unreachable
and generic errors.  `FloodWait` is not counted as failed. -/
def countsFailed : BOutcome → Bool
  | .blocked => true
  | .otherError => true
  | _ => false

/-- Running state of one `broadcast_handler` invocation. -/
structure BState where
  storage : Storage
  success_count : Nat
  failed_count : Nat
  removed_count : Nat
  events : List BEvent
  deriving DecidableEq

/-- Events emitted by one iteration of the broadcast loop for `uid`. -/
def stepEvents (o : Nat → BOutcome) (uid : Nat) : List BEvent :=
  match o uid with
  | .success => [.attempt uid, .delivered uid, .antiflood]
  | .blocked => [.attempt uid]
  | .floodWait d => [.attempt uid, .pause d]
  | .otherError => [.attempt uid]

/-- One iteration of the broadcast loop: attempt the copy, classify the
outcome.  Success bumps the success counter; recipient unreachable
removes the user and bumps both the removed and failed counters;
`FloodWait` only sleeps for the provider-specified duration (the loop
then advances); any other error bumps the failed counter. -/
def broadcastStep (o : Nat → BOutcome) (st : BState) (uid : Nat) : BState :=
  match o uid with
  | .success =>
      { st with success_count := st.success_count + 1,
                events := st.events ++ stepEvents o uid }
  | .blocked =>
      { st with storage := remove_user st.storage uid,
                removed_count := st.removed_count + 1,
                failed_count := st.failed_count + 1,
                events := st.events ++ stepEvents o uid }
  | .floodWait _ =>
      { st with events := st.events ++ stepEvents o uid }
  | .otherError =>
      { st with failed_count := st.failed_count + 1,
                events := st.events ++ stepEvents o uid }

/-- The broadcast loop over the population snapshot, in order. -/
def broadcastLoop (o : Nat → BOutcome) : BState → List Nat → BState
  | st, [] => st
  | st, uid :: rest => broadcastLoop o (broadcastStep o st uid) rest

/-- `broadcast_handler`: snapshot the user population once, process
every target in order, then bump `total_broadcasts` once. -/
def broadcastRun (s : Storage) (o : Nat → BOutcome) : BState :=
  let final := broadcastLoop o
    { storage := s, success_count := 0, failed_count := 0, removed_count := 0, events := [] }
    (get_all_users s)
  { final with storage := increment_stat final.storage "total_broadcasts" }

/-- Number of `copy_message` attempts in a replay event list. -/
def isAttempt : REvent → Bool
  | .attempt _ _ => true
  | _ => false

def attemptCount (evs : List REvent) : Nat := (evs.filter isAttempt).length

/-- Number of occurrences of one replay event. -/
def countEv (e : REvent) (evs : List REvent) : Nat :=
  (evs.filter (fun x => decide (x = e))).length

/-- Number of occurrences of one broadcast event. -/
def countBEv (e : BEvent) (evs : List BEvent) : Nat :=
  (evs.filter (fun x => decide (x = e))).length

/-- Number of occurrences of a user id in a target list. -/
def countN (v : Nat) (l : List Nat) : Nat :=
  (l.filter (fun x => decide (x = v))).length

/-- A named counter, read back as the stats handlers do:
`stats.get(name, 0)`. -/
def statsLookup (s : Storage) (name : String) : Nat :=
  (lookupA s.local_stats name).getD 0

/-- A user's stored `search_count` (0 when the user is unknown). -/
def searchCountOf (s : Storage) (uid : Nat) : Nat :=
  ((lookupA s.local_users uid).map UserInfo.search_count).getD 0

/-- A placeholder user record for concrete test populations. -/
def u0 : UserInfo :=
  { last_seen := 0, username := "", first_name := "", search_count := 0, join_date := 0 }

/-- A storage whose user directory holds exactly the given ids. -/
def storageWithUsers (ids : List Nat) : Storage :=
  { initStorage 0 with local_users := ids.map (fun i => (i, u0)) }

/-- Population of 10 users, for the broadcast classification test. -/
def s10 : Storage := storageWithUsers [1, 2, 3, 4, 5, 6, 7, 8, 9, 10]

/-- Delivery oracle: targets 3 and 7 are recipient-unreachable, the rest
succeed. -/
def o10 : Nat → BOutcome := fun uid => if uid = 3 ∨ uid = 7 then .blocked else .success

/-- Population of 6 users, for the rate-limit test. -/
def s6 : Storage := storageWithUsers [1, 2, 3, 4, 5, 6]

/-- Delivery oracle: target 5 is rate-limited for 30 seconds, the rest
succeed. -/
def o6 : Nat → BOutcome := fun uid => if uid = 5 then .floodWait 30 else .success

/-- A concrete payload. -/
def fd0 : FileData :=
  { chat_id := 0, message_id := 1, added_by := 42, file_type := "text", added_at := 0 }

/-- Twelve concrete payloads for one keyword. -/
def payloads12 : List FileData :=
  (List.range 12).map
    (fun k => { chat_id := 0, message_id := k, added_by := 0, file_type := "text", added_at := 0 })

/-- Six stored keywords with twelve payloads each, all of which fire on
the text `"a b c d e f"`. -/
def sC4 : Storage :=
  { initStorage 0 with local_filters :=
      [("a", payloads12), ("b", payloads12), ("c", payloads12),
       ("d", payloads12), ("e", payloads12), ("f", payloads12)] }

/-- A private message whose text fires all six keywords of `sC4`. -/
def mC4 : PrivateMessage :=
  { chat_id := 99, username := "u", first_name := "n", text := "a b c d e f" }

/-- Replay oracle: every copy succeeds. -/
def oAllSuccess : String → Nat → Outcome := fun _ _ => .success

/-- Two concrete payloads for the replay rate-limit test. -/
def files2 : List FileData := [fd0, { fd0 with message_id := 2 }]

/-- Replay oracle: payload 0 is rate-limited for 3 seconds, the rest
succeed. -/
def oRL0 : Nat → Outcome := fun i => if i = 0 then .floodWait 3 else .success


theorem lookupA_map_update {α β : Type} [BEq α] [LawfulBEq α] (k : α) (v : β) :
    ∀ l : List (α × β), hasKey l k = true →
      lookupA (l.map (fun p => if p.1 == k then (k, v) else p)) k = some v := by
  intro l
  induction l with
  | nil => intro h; simp [hasKey] at h
  | cons p l ih =>
    intro h
    by_cases hpk : p.1 = k
    · have h1 : (p.1 == k) = true := beq_iff_eq.mpr hpk
      simp [lookupA, h1]
    · have h1 : (p.1 == k) = false := beq_eq_false_iff_ne.mpr hpk
      have h2 : hasKey l k = true := by simpa [hasKey, h1] using h
      simp [lookupA, h1, ih h2]

theorem lookupA_map_update_ne {α β : Type} [BEq α] [LawfulBEq α] (k k' : α) (v : β)
    (hne : k' ≠ k) :
    ∀ l : List (α × β),
      lookupA (l.map (fun p => if p.1 == k then (k, v) else p)) k' = lookupA l k' := by
  intro l
  induction l with
  | nil => simp [lookupA]
  | cons p l ih =>
    by_cases hpk : p.1 = k
    · have h1 : (p.1 == k) = true := beq_iff_eq.mpr hpk
      have h2 : (k == k') = false := beq_eq_false_iff_ne.mpr (Ne.symm hne)
      have h3 : (p.1 == k') = false := by
        subst hpk; exact h2
      simp [lookupA, h1, h2, h3, ih]
    · have h1 : (p.1 == k) = false := beq_eq_false_iff_ne.mpr hpk
      by_cases hpk' : p.1 = k'
      · have h2 : (p.1 == k') = true := beq_iff_eq.mpr hpk'
        simp [lookupA, h1, h2]
      · have h2 : (p.1 == k') = false := beq_eq_false_iff_ne.mpr hpk'
        simp [lookupA, h1, h2, ih]

theorem lookupA_append_single {α β : Type} [BEq α] [LawfulBEq α] (k : α) (v : β) :
    ∀ l : List (α × β), hasKey l k = false → lookupA (l ++ [(k, v)]) k = some v := by
  intro l
  induction l with
  | nil => simp [lookupA]
  | cons p l ih =>
    intro h
    have h1 : (p.1 == k) = false := by
      cases hb : (p.1 == k)
      · rfl
      · simp [hasKey, hb] at h
    have h2 : hasKey l k = false := by simpa [hasKey, h1] using h
    simp [lookupA, h1, ih h2]

theorem lookupA_append_single_ne {α β : Type} [BEq α] [LawfulBEq α] (k k' : α) (v : β)
    (hne : k' ≠ k) :
    ∀ l : List (α × β), lookupA (l ++ [(k, v)]) k' = lookupA l k' := by
  intro l
  induction l with
  | nil =>
    have h2 : (k == k') = false := beq_eq_false_iff_ne.mpr (Ne.symm hne)
    simp [lookupA, h2]
  | cons p l ih =>
    by_cases hpk' : p.1 = k'
    · have h2 : (p.1 == k') = true := beq_iff_eq.mpr hpk'
      simp [lookupA, h2]
    · have h2 : (p.1 == k') = false := beq_eq_false_iff_ne.mpr hpk'
      simp [lookupA, h2, ih]

theorem lookupA_setAssoc_self {α β : Type} [BEq α] [LawfulBEq α]
    (l : List (α × β)) (k : α) (v : β) : lookupA (setAssoc l k v) k = some v := by
  unfold setAssoc
  cases h : hasKey l k
  · simp only [Bool.false_eq_true, if_false]
    exact lookupA_append_single k v l h
  · simp only [if_true]
    exact lookupA_map_update k v l h

theorem lookupA_setAssoc_ne {α β : Type} [BEq α] [LawfulBEq α]
    (l : List (α × β)) (k k' : α) (v : β) (hne : k' ≠ k) :
    lookupA (setAssoc l k v) k' = lookupA l k' := by
  unfold setAssoc
  cases h : hasKey l k
  · simp only [Bool.false_eq_true, if_false]
    exact lookupA_append_single_ne k k' v hne l
  · simp only [if_true]
    exact lookupA_map_update_ne k k' v hne l

theorem hasKey_eq_false_of_lookupA_none {α β : Type} [BEq α]
    (l : List (α × β)) (k : α) (h : lookupA l k = none) : hasKey l k = false := by
  induction l with
  | nil => simp [hasKey]
  | cons p l ih =>
    cases hb : (p.1 == k)
    · have h2 : lookupA l k = none := by simpa [lookupA, hb] using h
      simpa [hasKey, hb] using ih h2
    · simp [lookupA, hb] at h

theorem hasKey_delAssoc_self {α β : Type} [BEq α]
    (l : List (α × β)) (k : α) : hasKey (delAssoc l k) k = false := by
  induction l with
  | nil => simp [hasKey, delAssoc]
  | cons p l ih =>
    cases hb : (p.1 == k)
    · simpa [delAssoc, hasKey, List.filter_cons, hb] using ih
    · simpa [delAssoc, hasKey, List.filter_cons, hb] using ih

theorem delAssoc_eq_self_of_hasKey_false {α β : Type} [BEq α]
    (l : List (α × β)) (k : α) (h : hasKey l k = false) : delAssoc l k = l := by
  apply List.filter_eq_self.mpr
  intro p hp
  have : (p.1 == k) = false := by
    cases hb : (p.1 == k)
    · rfl
    · exfalso
      have : l.any (fun q => q.1 == k) = true := List.any_eq_true.mpr ⟨p, hp, hb⟩
      simp [hasKey, this] at h
  simp [this]

theorem lookupA_eq_none_of_hasKey_false {α β : Type} [BEq α]
    (l : List (α × β)) (k : α) (h : hasKey l k = false) : lookupA l k = none := by
  induction l with
  | nil => simp [lookupA]
  | cons p l ih =>
    have h1 : (p.1 == k) = false := by
      cases hb : (p.1 == k)
      · rfl
      · simp [hasKey, hb] at h
    have h2 : hasKey l k = false := by simpa [hasKey, h1] using h
    simp [lookupA, h1, ih h2]

theorem hasKey_setAssoc_self {α β : Type} [BEq α] [LawfulBEq α]
    (l : List (α × β)) (k : α) (v : β) : hasKey (setAssoc l k v) k = true := by
  cases hb : hasKey (setAssoc l k v) k
  · have h2 := lookupA_eq_none_of_hasKey_false (setAssoc l k v) k hb
    rw [lookupA_setAssoc_self] at h2
    exact absurd h2 (by simp)
  · rfl


theorem add_user_local_filters (s : Storage) (uid : Nat) (d : UserData) (now : Nat) :
    (add_user s uid d now).local_filters = s.local_filters := by
  cases h : lookupA s.local_users uid <;> simp [add_user, h]

theorem add_user_local_stats (s : Storage) (uid : Nat) (d : UserData) (now : Nat) :
    (add_user s uid d now).local_stats = s.local_stats := by
  cases h : lookupA s.local_users uid <;> simp [add_user, h]

theorem increment_user_search_local_filters (s : Storage) (uid : Nat) :
    (increment_user_search s uid).local_filters = s.local_filters := by
  cases h : lookupA s.local_users uid <;> simp [increment_user_search, h]

theorem increment_user_search_local_stats (s : Storage) (uid : Nat) :
    (increment_user_search s uid).local_stats = s.local_stats := by
  cases h : lookupA s.local_users uid <;> simp [increment_user_search, h]

theorem add_group_local_filters (s : Storage) (gid : Nat) (t u : String) (mc now : Nat) :
    (add_group s gid t u mc now).local_filters = s.local_filters := by
  cases h : lookupA s.local_groups gid <;> simp [add_group, h]

theorem add_group_local_stats (s : Storage) (gid : Nat) (t u : String) (mc now : Nat) :
    (add_group s gid t u mc now).local_stats = s.local_stats := by
  cases h : lookupA s.local_groups gid <;> simp [add_group, h]

theorem increment_stat_local_users (s : Storage) (name : String) :
    (increment_stat s name).local_users = s.local_users := rfl

theorem remove_user_local_filters (s : Storage) (uid : Nat) :
    (remove_user s uid).local_filters = s.local_filters := by
  unfold remove_user
  cases h : hasKey s.local_users uid <;> simp [h]

theorem remove_user_local_stats (s : Storage) (uid : Nat) :
    (remove_user s uid).local_stats = s.local_stats := by
  unfold remove_user
  cases h : hasKey s.local_users uid <;> simp [h]

theorem remove_user_local_groups (s : Storage) (uid : Nat) :
    (remove_user s uid).local_groups = s.local_groups := by
  unfold remove_user
  cases h : hasKey s.local_users uid <;> simp [h]

theorem remove_user_local_users (s : Storage) (uid : Nat) :
    (remove_user s uid).local_users = delAssoc s.local_users uid := by
  unfold remove_user
  cases h : hasKey s.local_users uid
  · simp only [h, Bool.false_eq_true, if_false]
    exact (delAssoc_eq_self_of_hasKey_false s.local_users uid h).symm
  · simp [h]

theorem statsLookup_increment_stat_self (s : Storage) (name : String) :
    statsLookup (increment_stat s name) name = statsLookup s name + 1 := by
  simp [statsLookup, increment_stat, lookupA_setAssoc_self]

/-- **C7.** Re-registering an already-known user preserves the stored
`join_date` and `search_count` and refreshes only `last_seen`,
`username` (handle) and `first_name` (display name). -/
theorem C7_idempotent_registration (s : Storage) (uid : Nat) (d : UserData) (now : Nat)
    (old : UserInfo) (h : lookupA s.local_users uid = some old) :
    lookupA (add_user s uid d now).local_users uid
      = some { last_seen := now, username := d.username, first_name := d.first_name,
               search_count := old.search_count, join_date := old.join_date } := by
  simp [add_user, h, lookupA_setAssoc_self]

/-- Witness for C7 at a concrete input: registering user 7 at time 100
and re-registering at time 200 with new display fields keeps
`join_date = 100` and `search_count = 0` and refreshes the rest. -/
theorem C7_idempotent_registration_witness :
    lookupA (add_user (add_user (initStorage 0) 7 ⟨"u", "A"⟩ 100) 7 ⟨"v", "B"⟩ 200).local_users 7
      = some { last_seen := 200, username := "v", first_name := "B",
               search_count := 0, join_date := 100 } := by
  have h1 : lookupA (add_user (initStorage 0) 7 ⟨"u", "A"⟩ 100).local_users 7
      = some { last_seen := 100, username := "u", first_name := "A",
               search_count := 0, join_date := 100 } := by decide
  exact C7_idempotent_registration _ 7 ⟨"v", "B"⟩ 200 _ h1

/-- **C10.** `remove_user` is total and idempotent: removing an absent
id leaves the state unchanged (and, being a total function, raises no
error), and removing the same id twice equals removing it once. -/
theorem C10_remove_user_idempotent (s : Storage) (uid : Nat) :
    (lookupA s.local_users uid = none → remove_user s uid = s)
    ∧ remove_user (remove_user s uid) uid = remove_user s uid := by
  constructor
  · intro h
    have hk : hasKey s.local_users uid = false := hasKey_eq_false_of_lookupA_none _ _ h
    simp [remove_user, hk]
  · cases hk : hasKey s.local_users uid
    · simp [remove_user, hk]
    · have h2 : hasKey (delAssoc s.local_users uid) uid = false := hasKey_delAssoc_self _ _
      simp [remove_user, hk, h2]

/-- Witness for C10 at a concrete input: removing user 5 from an empty
store is a no-op, twice as well. -/
theorem C10_remove_user_idempotent_witness :
    (remove_user (initStorage 0) 5 = initStorage 0)
    ∧ remove_user (remove_user (initStorage 0) 5) 5 = remove_user (initStorage 0) 5 :=
  ⟨(C10_remove_user_idempotent (initStorage 0) 5).1 rfl,
   (C10_remove_user_idempotent (initStorage 0) 5).2⟩

/-- **C6 counterexample.** `AdvancedStorage.add_filter` does not trim:
adding under `" Avenger "` stores the key `" avenger "` (lower-cased,
spaces kept), so deleting or looking up `"avenger"` does not resolve to
that entry; and an empty keyword is not rejected — it is stored under
the key `""`. -/
theorem C6_counterexample :
    (delete_filter (add_filter (initStorage 0) " Avenger " fd0 0) "avenger").2 = false
    ∧ lookupA (add_filter (initStorage 0) " Avenger " fd0 0).local_filters " avenger "
        = some [fd0]
    ∧ lookupA (add_filter (initStorage 0) " Avenger " fd0 0).local_filters "avenger" = none
    ∧ lookupA (add_filter (initStorage 0) "" fd0 0).local_filters "" = some [fd0] := by
  refine ⟨by decide, by decide, by decide, by decide⟩

/-- **C6 (amended).** `add_filter` canonicalizes its keyword only by
lower-casing (no trim, no empty-keyword rejection; the command handlers
strip the keyword before calling it): the payload is stored under
`pyLower kw`, appended to the existing list, and `delete_filter` with
any keyword that lower-cases to the same string finds and resolves to
the same stored entry. -/
theorem C6_add_filter_canonicalization (s : Storage) (kw kw2 : String) (fd : FileData)
    (now : Nat) (h : pyLower kw2 = pyLower kw) :
    lookupA (add_filter s kw fd now).local_filters (pyLower kw)
      = some ((lookupA s.local_filters (pyLower kw)).getD [] ++ [{ fd with added_at := now }])
    ∧ (delete_filter (add_filter s kw fd now) kw2).2 = true := by
  constructor
  · simp [add_filter, lookupA_setAssoc_self]
  · have hk : hasKey (add_filter s kw fd now).local_filters (pyLower kw2) = true := by
      rw [h]
      simpa [add_filter] using
        hasKey_setAssoc_self s.local_filters (pyLower kw)
          ((lookupA s.local_filters (pyLower kw)).getD [] ++ [{ fd with added_at := now }])
    simp [delete_filter, hk]

/-- Witness for C6 (amended) at a concrete input: adding under
`"Avenger"` and deleting `"avenger"` resolve to the same entry. -/
theorem C6_add_filter_canonicalization_witness :
    (pyLower "avenger" = pyLower "Avenger")
    ∧ lookupA (add_filter (initStorage 0) "Avenger" fd0 0).local_filters (pyLower "Avenger")
        = some ((lookupA (initStorage 0).local_filters (pyLower "Avenger")).getD []
            ++ [{ fd0 with added_at := 0 }])
    ∧ (delete_filter (add_filter (initStorage 0) "Avenger" fd0 0) "avenger").2 = true := by
  have h := C6_add_filter_canonicalization (initStorage 0) "Avenger" "avenger" fd0 0 (by decide)
  exact ⟨by decide, h.1, h.2⟩


theorem get?_drop_add {α : Type} : ∀ (l : List α) (i j : Nat), (l.drop i).get? j = l.get? (i + j) := by
  intro l
  induction l with
  | nil => intro i j; simp
  | cons a l ih =>
    intro i j
    cases i with
    | zero => simp
    | succ i => simpa [Nat.succ_add] using ih i j

theorem get?_take_lt {α : Type} : ∀ (l : List α) (n j : Nat), j < n → (l.take n).get? j = l.get? j := by
  intro l
  induction l with
  | nil => intro n j _; simp
  | cons a l ih =>
    intro n j hj
    cases n with
    | zero => omega
    | succ n =>
      cases j with
      | zero => simp
      | succ j => simpa using ih n j (by omega)

theorem occursAt_get? (kw text : List Char) (i : Nat) (h : occursAt kw text i = true) :
    ∀ j, j < kw.length → text.get? (i + j) = kw.get? j := by
  have he : (text.drop i).take kw.length = kw := of_decide_eq_true h
  intro j hj
  have h1 : kw.get? j = ((text.drop i).take kw.length).get? j := by rw [he]
  rw [h1, get?_take_lt _ _ _ hj, get?_drop_add]

theorem occursAt_le_length (kw text : List Char) (i : Nat) (hne : kw ≠ [])
    (h : occursAt kw text i = true) : i + kw.length ≤ text.length := by
  have he : (text.drop i).take kw.length = kw := of_decide_eq_true h
  have hlen : ((text.drop i).take kw.length).length = kw.length := by rw [he]
  have h2 : min kw.length (text.length - i) = kw.length := by
    simpa [List.length_take, List.length_drop] using hlen
  have h3 : 0 < kw.length := List.length_pos.mpr hne
  omega

theorem wordMatchAt_eq_wholeWord (kw text : List Char) (hne : kw ≠ [])
    (hw : ∀ c ∈ kw, isWordChar c = true) (i : Nat) :
    wordMatchAt kw text i = wholeWordOccursAt kw text i := by
  cases hocc : occursAt kw text i with
  | false => simp [wordMatchAt, wholeWordOccursAt, hocc]
  | true =>
    have hlen0 : 0 < kw.length := List.length_pos.mpr hne
    obtain ⟨c0, hc0⟩ : ∃ c, kw.get? 0 = some c := by
      cases kw with
      | nil => exact absurd rfl hne
      | cons a l => exact ⟨a, rfl⟩
    have hti : text.get? i = some c0 := by
      simpa using (occursAt_get? kw text i hocc 0 hlen0).trans hc0
    have hwi : wordAt text i = true := by
      rw [List.get?_eq_getElem?] at hti
      simp [wordAt, hti, hw c0 (List.get?_mem hc0)]
    obtain ⟨cl, hcl⟩ : ∃ c, kw.get? (kw.length - 1) = some c :=
      ⟨_, List.get?_eq_get (by omega)⟩
    have htl : text.get? (i + (kw.length - 1)) = some cl :=
      (occursAt_get? kw text i hocc (kw.length - 1) (by omega)).trans hcl
    have hwl : wordAt text (i + kw.length - 1) = true := by
      have hidx : i + kw.length - 1 = i + (kw.length - 1) := by omega
      rw [hidx]
      rw [List.get?_eq_getElem?] at htl
      simp [wordAt, htl, hw cl (List.get?_mem hcl)]
    have hb1 : boundaryAt text i = !(decide (0 < i) && wordAt text (i - 1)) := by
      unfold boundaryAt
      rw [hwi]
      by_cases h0 : i = 0
      · simp [h0]
      · have : decide (0 < i) = true := by simp; omega
        simp [h0, this]
    have hb2 : boundaryAt text (i + kw.length) = !(wordAt text (i + kw.length)) := by
      unfold boundaryAt
      have h0 : ¬(i + kw.length = 0) := by omega
      rw [if_neg h0, hwl]
      cases wordAt text (i + kw.length) <;> rfl
    simp [wordMatchAt, wholeWordOccursAt, hocc, hb1, hb2, Bool.and_comm]

theorem regexWordSearch_iff_wholeWord (kw text : List Char) (hne : kw ≠ [])
    (hw : ∀ c ∈ kw, isWordChar c = true) :
    regexWordSearch kw text = true ↔ ∃ i, wholeWordOccursAt kw text i = true := by
  unfold regexWordSearch
  rw [List.any_eq_true]
  constructor
  · rintro ⟨i, _, hm⟩
    exact ⟨i, (wordMatchAt_eq_wholeWord kw text hne hw i) ▸ hm⟩
  · rintro ⟨i, hww⟩
    have hocc : occursAt kw text i = true := by
      have h2 := hww
      simp only [wholeWordOccursAt, Bool.and_eq_true] at h2
      exact h2.1.1
    have hle := occursAt_le_length kw text i hne hocc
    have hlen0 : 0 < kw.length := List.length_pos.mpr hne
    refine ⟨i, List.mem_range.mpr (by omega), ?_⟩
    rw [wordMatchAt_eq_wholeWord kw text hne hw i]
    exact hww

theorem string_data_ne_nil (kw : String) (h : kw ≠ "") : kw.data ≠ [] := by
  intro hd
  apply h
  cases kw with
  | mk l =>
    simp only [] at hd
    subst hd
    rfl

/-- **C5.** The keyword matcher fires a stored keyword only on a
whole-word (regex `\b`-bounded) occurrence in the lower-cased text,
never as a substring of a larger token; conversely a whole-word
occurrence of a stored non-empty keyword fires it; `"avenger"` fires on
`"watch avenger now"` and not on `"avengers2 release"`; empty keywords
are skipped. -/
theorem C5_word_boundary_matching :
    (∀ (fs : List (String × List FileData)) (raw kw : String),
        (∀ c ∈ kw.data, isWordChar c = true) →
        kw ∈ matchedKeywords fs (pyLower raw) →
        kw ≠ "" ∧ ∃ i, wholeWordOccursAt kw.data (pyLower raw).data i = true)
    ∧ (∀ (fs : List (String × List FileData)) (raw kw : String),
        kw ∈ fs.map Prod.fst → kw ≠ "" → (∀ c ∈ kw.data, isWordChar c = true) →
        (∃ i, wholeWordOccursAt kw.data (pyLower raw).data i = true) →
        kw ∈ matchedKeywords fs (pyLower raw))
    ∧ matchedKeywords [("avenger", [fd0])] (pyLower "watch avenger now") = ["avenger"]
    ∧ matchedKeywords [("avenger", [fd0])] (pyLower "avengers2 release") = []
    ∧ (∀ (fs : List (String × List FileData)) (text : String),
        "" ∉ matchedKeywords fs text) := by
  refine ⟨?_, ?_, by decide, by decide, ?_⟩
  · intro fs raw kw hw hmem
    rw [matchedKeywords, List.mem_filter] at hmem
    obtain ⟨-, hp⟩ := hmem
    simp only [Bool.and_eq_true, decide_eq_true_eq] at hp
    obtain ⟨hne, hsearch⟩ := hp
    exact ⟨hne, (regexWordSearch_iff_wholeWord _ _ (string_data_ne_nil kw hne) hw).mp hsearch⟩
  · intro fs raw kw hmem hne hw hex
    rw [matchedKeywords, List.mem_filter]
    refine ⟨hmem, ?_⟩
    simp only [Bool.and_eq_true, decide_eq_true_eq]
    exact ⟨hne, (regexWordSearch_iff_wholeWord _ _ (string_data_ne_nil kw hne) hw).mpr hex⟩
  · intro fs text hmem
    rw [matchedKeywords, List.mem_filter] at hmem
    simp at hmem

/-- Witness for C5 at a concrete input: the firing of `"avenger"` on
`"watch avenger now"` really is a whole-word occurrence. -/
theorem C5_word_boundary_matching_witness :
    "avenger" ≠ ""
    ∧ ∃ i, wholeWordOccursAt "avenger".data (pyLower "watch avenger now").data i = true :=
  C5_word_boundary_matching.1 [("avenger", [fd0])] "watch avenger now" "avenger"
    (by decide) (by decide)


theorem attemptCount_append (l₁ l₂ : List REvent) :
    attemptCount (l₁ ++ l₂) = attemptCount l₁ + attemptCount l₂ := by
  simp [attemptCount, List.filter_append]

theorem countEv_append (e : REvent) (l₁ l₂ : List REvent) :
    countEv e (l₁ ++ l₂) = countEv e l₁ + countEv e l₂ := by
  simp [countEv, List.filter_append]

theorem countBEv_append (e : BEvent) (l₁ l₂ : List BEvent) :
    countBEv e (l₁ ++ l₂) = countBEv e l₁ + countBEv e l₂ := by
  simp [countBEv, List.filter_append]

theorem attemptCount_iterEvents (kw : String) (o : Nat → Outcome) (i : Nat) :
    attemptCount (iterEvents kw o i) = 1 := by
  unfold iterEvents
  cases o i <;> simp [attemptCount, isAttempt]

theorem attemptCount_replayEvents (kw : String) (o : Nat → Outcome) (files : List FileData) :
    attemptCount (replayEvents kw o files) = files.length := by
  unfold replayEvents
  generalize files.length = n
  induction n with
  | zero => simp [attemptCount]
  | succ n ih =>
    rw [List.range_succ, List.flatMap_append, attemptCount_append, ih]
    simp [attemptCount_iterEvents]

theorem countEv_attempt_iterEvents (kw : String) (o : Nat → Outcome) (i j : Nat) :
    countEv (REvent.attempt kw j) (iterEvents kw o i) = if i = j then 1 else 0 := by
  unfold iterEvents
  by_cases h : i = j <;> cases o i <;> simp [countEv, h]

theorem countEv_attempt_replayEvents (kw : String) (o : Nat → Outcome) (files : List FileData)
    (j : Nat) :
    countEv (REvent.attempt kw j) (replayEvents kw o files)
      = if j < files.length then 1 else 0 := by
  unfold replayEvents
  generalize files.length = n
  induction n with
  | zero => simp [countEv]
  | succ n ih =>
    rw [List.range_succ, List.flatMap_append, countEv_append, ih]
    simp only [List.flatMap_cons, List.flatMap_nil, List.append_nil,
      countEv_attempt_iterEvents]
    by_cases h1 : j < n
    · have h2 : ¬(n = j) := by omega
      have h3 : j < n + 1 := by omega
      simp [h1, h2, h3]
    · by_cases h2 : n = j
      · have h3 : j < n + 1 := by omega
        simp [h1, h2, h3]
      · have h3 : ¬(j < n + 1) := by omega
        simp [h1, h2, h3]

theorem flatMap_range_split {α : Type} (f : Nat → List α) :
    ∀ (n j : Nat), j < n →
      ∃ pre post, (List.range n).flatMap f = pre ++ f j ++ post := by
  intro n
  induction n with
  | zero => intro j hj; omega
  | succ n ih =>
    intro j hj
    rw [List.range_succ, List.flatMap_append]
    by_cases h1 : j < n
    · obtain ⟨pre, post, hp⟩ := ih j h1
      exact ⟨pre, post ++ [n].flatMap f, by rw [hp]; simp⟩
    · have h2 : j = n := by omega
      subst h2
      exact ⟨(List.range j).flatMap f, [], by simp⟩

/-- **C2 counterexample.** In the replay loop, a rate limit on payload 0
(of two payloads) produces exactly: the attempt of payload 0, the
provider-specified pause, then the attempt of payload 1 — the loop does
NOT continue from the same payload: payload 0 is attempted exactly once
and is not re-attempted after the pause. -/
theorem C2_counterexample :
    replayEvents "k" oRL0 files2
      = [REvent.attempt "k" 0, REvent.pause 3, REvent.attempt "k" 1, REvent.antiflood]
    ∧ countEv (REvent.attempt "k" 0) (replayEvents "k" oRL0 files2) = 1 := by
  refine ⟨by decide, by decide⟩

/-- **C2 (amended).** In the replay loop every payload is attempted
exactly once, whatever the per-payload outcomes are — so a rate-limited
payload is attempted once and then skipped (not re-attempted, but the
loop is not aborted), any other delivery error also lets the loop
proceed, and a single broken payload never prevents the remaining
payloads from being attempted; a rate-limited payload's attempt is
immediately followed by a pause of the provider-specified duration. -/
theorem C2_replay_loop_behavior (kw : String) (o : Nat → Outcome) (files : List FileData) :
    (∀ j : Nat, countEv (REvent.attempt kw j) (replayEvents kw o files)
        = if j < files.length then 1 else 0)
    ∧ (∀ j d : Nat, j < files.length → o j = Outcome.floodWait d →
        ∃ pre post,
          replayEvents kw o files = pre ++ [REvent.attempt kw j, REvent.pause d] ++ post) := by
  constructor
  · intro j
    exact countEv_attempt_replayEvents kw o files j
  · intro j d hj ho
    obtain ⟨pre, post, hp⟩ := flatMap_range_split (iterEvents kw o) files.length j hj
    refine ⟨pre, post, ?_⟩
    rw [replayEvents, hp]
    simp [iterEvents, ho]

/-- Witness for C2 (amended) at a concrete input: with a rate limit on
payload 0 of two, payload 1 is still attempted exactly once, and the
attempt of payload 0 is followed by the 3-second pause. -/
theorem C2_replay_loop_behavior_witness :
    (countEv (REvent.attempt "k" 1) (replayEvents "k" oRL0 files2)
        = if 1 < files2.length then 1 else 0)
    ∧ ∃ pre post,
        replayEvents "k" oRL0 files2
          = pre ++ [REvent.attempt "k" 0, REvent.pause 3] ++ post :=
  ⟨(C2_replay_loop_behavior "k" oRL0 files2).1 1,
   (C2_replay_loop_behavior "k" oRL0 files2).2 0 3 (by decide) (by decide)⟩


theorem attemptCount_flatMap_le (f : String → List REvent) :
    ∀ l : List String, (∀ kw ∈ l, attemptCount (f kw) ≤ 10) →
      attemptCount (l.flatMap f) ≤ 10 * l.length := by
  intro l
  induction l with
  | nil => intro _; simp [attemptCount]
  | cons a l ih =>
    intro h
    rw [List.flatMap_cons, attemptCount_append]
    have h1 := h a (List.mem_cons_self a l)
    have h2 := ih (fun kw hkw => h kw (List.mem_cons_of_mem a hkw))
    simp only [List.length_cons]
    omega

theorem attemptCount_fanoutEvents_le (allF : List (String × List FileData))
    (matched : List String) (o : String → Nat → Outcome) :
    attemptCount (fanoutEvents allF matched o) ≤ 50 := by
  unfold fanoutEvents
  have h1 : ∀ kw ∈ matched.take 5,
      attemptCount (replayEvents kw (o kw) (((lookupA allF kw).getD []).take 10)) ≤ 10 := by
    intro kw _
    rw [attemptCount_replayEvents]
    exact List.length_take_le 10 _
  have h2 := attemptCount_flatMap_le _ (matched.take 5) h1
  have h3 : (matched.take 5).length ≤ 5 := List.length_take_le 5 matched
  omega

theorem mem_iterEvents_attempt (kw kw2 : String) (o : Nat → Outcome) (i j : Nat)
    (h : REvent.attempt kw j ∈ iterEvents kw2 o i) : kw = kw2 ∧ j = i := by
  unfold iterEvents at h
  cases ho : o i <;> rw [ho] at h <;> simp at h <;> exact h

theorem mem_replayEvents_attempt (kw kw2 : String) (o : Nat → Outcome)
    (files : List FileData) (j : Nat)
    (h : REvent.attempt kw j ∈ replayEvents kw2 o files) :
    kw = kw2 ∧ j < files.length := by
  unfold replayEvents at h
  rw [List.mem_flatMap] at h
  obtain ⟨i, hi, hmem⟩ := h
  obtain ⟨hkw, hji⟩ := mem_iterEvents_attempt kw kw2 o i j hmem
  exact ⟨hkw, by subst hji; exact List.mem_range.mp hi⟩

theorem mem_fanoutEvents_attempt (allF : List (String × List FileData))
    (matched : List String) (o : String → Nat → Outcome) (kw : String) (i : Nat)
    (h : REvent.attempt kw i ∈ fanoutEvents allF matched o) :
    kw ∈ matched.take 5 ∧ i < 10 := by
  unfold fanoutEvents at h
  rw [List.mem_flatMap] at h
  obtain ⟨kw2, hkw2, hmem⟩ := h
  obtain ⟨hkw, hlt⟩ := mem_replayEvents_attempt kw kw2 _ _ i hmem
  subst hkw
  refine ⟨hkw2, ?_⟩
  have := List.length_take_le 10 ((lookupA allF kw).getD [])
  omega

theorem matchAndReplay_fst (s : Storage) (textRaw : String) (o : String → Nat → Outcome) :
    (matchAndReplay s textRaw o).1
      = if matchedKeywords s.local_filters (pyLower textRaw) = [] then s
        else increment_stat s "total_searches" := by
  unfold matchAndReplay get_all_filters
  by_cases h : matchedKeywords s.local_filters (pyLower textRaw) = [] <;> simp [h]

theorem matchAndReplay_snd (s : Storage) (textRaw : String) (o : String → Nat → Outcome) :
    (matchAndReplay s textRaw o).2
      = if matchedKeywords s.local_filters (pyLower textRaw) = [] then []
        else fanoutEvents s.local_filters (matchedKeywords s.local_filters (pyLower textRaw)) o := by
  unfold matchAndReplay get_all_filters
  by_cases h : matchedKeywords s.local_filters (pyLower textRaw) = [] <;> simp [h]

theorem keywordMatchPrivate_filters_eq (s : Storage) (m : PrivateMessage) (now : Nat) :
    (increment_user_search (add_user s m.chat_id ⟨m.username, m.first_name⟩ now)
        m.chat_id).local_filters = s.local_filters := by
  rw [increment_user_search_local_filters, add_user_local_filters]

/-- **C4.** Fan-out caps: on every inbound private message the number of
replay attempts is at most 50; every attempt belongs to one of the
first 5 fired keywords and to one of the first 10 payloads of that
keyword (the excess is silently dropped — the fan-out is a total
function, there is no error case); and on the concrete population of 6
fired keywords with 12 payloads each, exactly 5 × 10 = 50 replay
attempts occur. -/
theorem C4_fanout_caps :
    (∀ (s : Storage) (m : PrivateMessage) (now : Nat) (o : String → Nat → Outcome),
        attemptCount (keywordMatchPrivate s m now o).2 ≤ 50)
    ∧ (∀ (s : Storage) (m : PrivateMessage) (now : Nat) (o : String → Nat → Outcome)
        (kw : String) (i : Nat),
        REvent.attempt kw i ∈ (keywordMatchPrivate s m now o).2 →
        kw ∈ (matchedKeywords s.local_filters (pyLower m.text)).take 5 ∧ i < 10)
    ∧ attemptCount (keywordMatchPrivate sC4 mC4 0 oAllSuccess).2 = 50 := by
  refine ⟨?_, ?_, by decide⟩
  · intro s m now o
    unfold keywordMatchPrivate
    rw [matchAndReplay_snd, keywordMatchPrivate_filters_eq]
    by_cases h : matchedKeywords s.local_filters (pyLower m.text) = []
    · simp [h, attemptCount]
    · simp only [h, if_false]
      exact attemptCount_fanoutEvents_le _ _ o
  · intro s m now o kw i hmem
    unfold keywordMatchPrivate at hmem
    rw [matchAndReplay_snd, keywordMatchPrivate_filters_eq] at hmem
    by_cases h : matchedKeywords s.local_filters (pyLower m.text) = []
    · rw [h] at hmem
      simp at hmem
    · simp only [h, if_false] at hmem
      exact mem_fanoutEvents_attempt _ _ o kw i hmem

/-- Witness for C4 at a concrete input: the attempt of payload 0 of
keyword `"a"` belongs to the first 5 fired keywords and the first 10
payloads. -/
theorem C4_fanout_caps_witness :
    "a" ∈ (matchedKeywords sC4.local_filters (pyLower mC4.text)).take 5 ∧ 0 < 10 :=
  C4_fanout_caps.2.1 sC4 mC4 0 oAllSuccess "a" 0 (by decide)


theorem statsLookup_matchAndReplay (s : Storage) (textRaw : String)
    (o : String → Nat → Outcome) :
    statsLookup (matchAndReplay s textRaw o).1 "total_searches"
      = statsLookup s "total_searches"
        + (if matchedKeywords s.local_filters (pyLower textRaw) = [] then 0 else 1) := by
  rw [matchAndReplay_fst]
  by_cases h : matchedKeywords s.local_filters (pyLower textRaw) = []
  · simp [h]
  · simp [h, statsLookup_increment_stat_self]

theorem statsLookup_keywordMatchPrivate_pre (s : Storage) (m : PrivateMessage) (now : Nat) :
    statsLookup (increment_user_search (add_user s m.chat_id ⟨m.username, m.first_name⟩ now)
        m.chat_id) "total_searches" = statsLookup s "total_searches" := by
  unfold statsLookup
  rw [increment_user_search_local_stats, add_user_local_stats]

/-- **C8.** `total_searches` is incremented exactly once per processed
inbound message when at least one keyword fired, and not at all when no
keyword fired, regardless of how many distinct keywords fired — stated
for the common matching stage and for both the private-chat and the
group-chat instantiations of `keyword_match_handler`. -/
theorem C8_total_searches_once :
    (∀ (s : Storage) (textRaw : String) (o : String → Nat → Outcome),
      statsLookup (matchAndReplay s textRaw o).1 "total_searches"
        = statsLookup s "total_searches"
          + (if matchedKeywords s.local_filters (pyLower textRaw) = [] then 0 else 1))
    ∧ (∀ (s : Storage) (m : PrivateMessage) (now : Nat) (o : String → Nat → Outcome),
      statsLookup (keywordMatchPrivate s m now o).1 "total_searches"
        = statsLookup s "total_searches"
          + (if matchedKeywords s.local_filters (pyLower m.text) = [] then 0 else 1))
    ∧ (∀ (s : Storage) (g : GroupMessage) (mc now : Nat) (o : String → Nat → Outcome),
      statsLookup (keywordMatchGroup s g mc now o).1 "total_searches"
        = statsLookup s "total_searches"
          + (if matchedKeywords s.local_filters (pyLower g.text) = [] then 0 else 1)) := by
  refine ⟨statsLookup_matchAndReplay, ?_, ?_⟩
  · intro s m now o
    unfold keywordMatchPrivate
    rw [statsLookup_matchAndReplay, statsLookup_keywordMatchPrivate_pre,
      keywordMatchPrivate_filters_eq]
  · intro s g mc now o
    unfold keywordMatchGroup
    rw [statsLookup_matchAndReplay, add_group_local_filters]
    unfold statsLookup
    rw [add_group_local_stats]

theorem lookupA_add_user_self (s : Storage) (uid : Nat) (d : UserData) (now : Nat) :
    ∃ u, lookupA (add_user s uid d now).local_users uid = some u
      ∧ u.search_count = searchCountOf s uid := by
  cases h : lookupA s.local_users uid with
  | none =>
    refine ⟨{ last_seen := now, username := d.username, first_name := d.first_name,
              search_count := 0, join_date := now }, ?_, ?_⟩
    · simp [add_user, h, lookupA_setAssoc_self]
    · simp [searchCountOf, h]
  | some old =>
    refine ⟨{ last_seen := now, username := d.username, first_name := d.first_name,
              search_count := old.search_count, join_date := old.join_date }, ?_, ?_⟩
    · simp [add_user, h, lookupA_setAssoc_self]
    · simp [searchCountOf, h]

theorem searchCountOf_increment_present (s : Storage) (uid : Nat) (u : UserInfo)
    (h : lookupA s.local_users uid = some u) :
    searchCountOf (increment_user_search s uid) uid = u.search_count + 1 := by
  simp [increment_user_search, h, searchCountOf, lookupA_setAssoc_self]

theorem searchCountOf_matchAndReplay (s : Storage) (textRaw : String)
    (o : String → Nat → Outcome) (uid : Nat) :
    searchCountOf (matchAndReplay s textRaw o).1 uid = searchCountOf s uid := by
  rw [matchAndReplay_fst]
  by_cases h : matchedKeywords s.local_filters (pyLower textRaw) = []
  · simp [h]
  · simp [h, searchCountOf, increment_stat]

/-- **C9.** For every private (non-command) text message processed by
`keyword_match_handler`, the sender's stored `search_count` is
incremented exactly once, whatever the stored filters, the message text
and the delivery outcomes are — in particular also when no keyword
fires.  The per-user counter therefore counts processed messages, not
successful matches. -/
theorem C9_per_user_search_count (s : Storage) (m : PrivateMessage) (now : Nat)
    (o : String → Nat → Outcome) :
    searchCountOf (keywordMatchPrivate s m now o).1 m.chat_id
      = searchCountOf s m.chat_id + 1 := by
  unfold keywordMatchPrivate
  rw [searchCountOf_matchAndReplay]
  obtain ⟨u, hu, hsc⟩ := lookupA_add_user_self s m.chat_id ⟨m.username, m.first_name⟩ now
  rw [searchCountOf_increment_present _ _ u hu, hsc]


theorem broadcastLoop_events (o : Nat → BOutcome) :
    ∀ (ts : List Nat) (st : BState),
      (broadcastLoop o st ts).events = st.events ++ ts.flatMap (stepEvents o) := by
  intro ts
  induction ts with
  | nil => intro st; simp [broadcastLoop]
  | cons u ts ih =>
    intro st
    rw [broadcastLoop, ih]
    cases h : o u <;> simp [broadcastStep, stepEvents, h]

theorem broadcastLoop_success (o : Nat → BOutcome) :
    ∀ (ts : List Nat) (st : BState),
      (broadcastLoop o st ts).success_count
        = st.success_count + (ts.filter (fun u => isSuccessB (o u))).length := by
  intro ts
  induction ts with
  | nil => intro st; simp [broadcastLoop]
  | cons u ts ih =>
    intro st
    rw [broadcastLoop, ih]
    cases h : o u <;> simp [broadcastStep, isSuccessB, h, List.filter_cons] <;> omega

theorem broadcastLoop_failed (o : Nat → BOutcome) :
    ∀ (ts : List Nat) (st : BState),
      (broadcastLoop o st ts).failed_count
        = st.failed_count + (ts.filter (fun u => countsFailed (o u))).length := by
  intro ts
  induction ts with
  | nil => intro st; simp [broadcastLoop]
  | cons u ts ih =>
    intro st
    rw [broadcastLoop, ih]
    cases h : o u <;> simp [broadcastStep, countsFailed, h, List.filter_cons] <;> omega

theorem broadcastLoop_removed (o : Nat → BOutcome) :
    ∀ (ts : List Nat) (st : BState),
      (broadcastLoop o st ts).removed_count
        = st.removed_count + (ts.filter (fun u => isBlockedB (o u))).length := by
  intro ts
  induction ts with
  | nil => intro st; simp [broadcastLoop]
  | cons u ts ih =>
    intro st
    rw [broadcastLoop, ih]
    cases h : o u <;> simp [broadcastStep, isBlockedB, h, List.filter_cons] <;> omega

theorem broadcastLoop_local_filters (o : Nat → BOutcome) :
    ∀ (ts : List Nat) (st : BState),
      (broadcastLoop o st ts).storage.local_filters = st.storage.local_filters := by
  intro ts
  induction ts with
  | nil => intro st; simp [broadcastLoop]
  | cons u ts ih =>
    intro st
    rw [broadcastLoop, ih]
    cases h : o u <;> simp [broadcastStep, h, remove_user_local_filters]

theorem broadcastLoop_local_stats (o : Nat → BOutcome) :
    ∀ (ts : List Nat) (st : BState),
      (broadcastLoop o st ts).storage.local_stats = st.storage.local_stats := by
  intro ts
  induction ts with
  | nil => intro st; simp [broadcastLoop]
  | cons u ts ih =>
    intro st
    rw [broadcastLoop, ih]
    cases h : o u <;> simp [broadcastStep, h, remove_user_local_stats]

theorem broadcastLoop_local_groups (o : Nat → BOutcome) :
    ∀ (ts : List Nat) (st : BState),
      (broadcastLoop o st ts).storage.local_groups = st.storage.local_groups := by
  intro ts
  induction ts with
  | nil => intro st; simp [broadcastLoop]
  | cons u ts ih =>
    intro st
    rw [broadcastLoop, ih]
    cases h : o u <;> simp [broadcastStep, h, remove_user_local_groups]

theorem broadcastLoop_local_users (o : Nat → BOutcome) :
    ∀ (ts : List Nat) (st : BState),
      (broadcastLoop o st ts).storage.local_users
        = st.storage.local_users.filter
            (fun p => !(decide (p.1 ∈ ts) && isBlockedB (o p.1))) := by
  intro ts
  induction ts with
  | nil =>
    intro st
    have hpred : (fun p : Nat × UserInfo => !(decide (p.1 ∈ ([] : List Nat)) && isBlockedB (o p.1)))
        = fun _ => true := by
      funext p
      simp
    rw [broadcastLoop, hpred, List.filter_true]
  | cons u ts ih =>
    intro st
    rw [broadcastLoop, ih]
    cases h : o u
    case blocked =>
      have husers : (broadcastStep o st u).storage.local_users
          = st.storage.local_users.filter (fun p => !(p.1 == u)) := by
        simp [broadcastStep, h, remove_user_local_users, delAssoc]
      rw [husers, List.filter_filter]
      congr 1
      funext p
      by_cases hpu : p.1 = u
      · simp [hpu, h, isBlockedB, List.mem_cons]
      · simp [hpu, List.mem_cons]
    all_goals {
      have husers : (broadcastStep o st u).storage.local_users = st.storage.local_users := by
        simp [broadcastStep, h]
      rw [husers]
      congr 1
      funext p
      by_cases hpu : p.1 = u
      · simp [hpu, h, isBlockedB, List.mem_cons]
      · simp [hpu, List.mem_cons]
    }


theorem broadcastRun_events (s : Storage) (o : Nat → BOutcome) :
    (broadcastRun s o).events = (get_all_users s).flatMap (stepEvents o) := by
  simp [broadcastRun, broadcastLoop_events]

theorem broadcastRun_success (s : Storage) (o : Nat → BOutcome) :
    (broadcastRun s o).success_count
      = ((get_all_users s).filter (fun u => isSuccessB (o u))).length := by
  simp [broadcastRun, broadcastLoop_success]

theorem broadcastRun_failed (s : Storage) (o : Nat → BOutcome) :
    (broadcastRun s o).failed_count
      = ((get_all_users s).filter (fun u => countsFailed (o u))).length := by
  simp [broadcastRun, broadcastLoop_failed]

theorem broadcastRun_removed (s : Storage) (o : Nat → BOutcome) :
    (broadcastRun s o).removed_count
      = ((get_all_users s).filter (fun u => isBlockedB (o u))).length := by
  simp [broadcastRun, broadcastLoop_removed]

theorem broadcastRun_local_users (s : Storage) (o : Nat → BOutcome) :
    (broadcastRun s o).storage.local_users
      = s.local_users.filter
          (fun p => !(decide (p.1 ∈ get_all_users s) && isBlockedB (o p.1))) := by
  have h1 : (increment_stat (broadcastLoop o
      { storage := s, success_count := 0, failed_count := 0, removed_count := 0, events := [] }
      (get_all_users s)).storage "total_broadcasts").local_users
      = (broadcastLoop o
      { storage := s, success_count := 0, failed_count := 0, removed_count := 0, events := [] }
      (get_all_users s)).storage.local_users := increment_stat_local_users _ _
  simp [broadcastRun, h1, broadcastLoop_local_users]

theorem broadcastRun_local_filters (s : Storage) (o : Nat → BOutcome) :
    (broadcastRun s o).storage.local_filters = s.local_filters := by
  simp [broadcastRun, increment_stat, broadcastLoop_local_filters]

theorem broadcastRun_local_groups (s : Storage) (o : Nat → BOutcome) :
    (broadcastRun s o).storage.local_groups = s.local_groups := by
  simp [broadcastRun, increment_stat, broadcastLoop_local_groups]

theorem broadcastRun_local_stats (s : Storage) (o : Nat → BOutcome) :
    (broadcastRun s o).storage.local_stats
      = setAssoc s.local_stats "total_broadcasts"
          ((lookupA s.local_stats "total_broadcasts").getD 0 + 1) := by
  simp [broadcastRun, increment_stat, broadcastLoop_local_stats]

theorem countBEv_attempt_stepEvents (o : Nat → BOutcome) (u v : Nat) :
    countBEv (BEvent.attempt v) (stepEvents o u) = if u = v then 1 else 0 := by
  unfold stepEvents
  by_cases h : u = v <;> cases o u <;> simp [countBEv, h]

theorem countBEv_attempt_flatMap (o : Nat → BOutcome) (v : Nat) :
    ∀ ts : List Nat, countBEv (BEvent.attempt v) (ts.flatMap (stepEvents o)) = countN v ts := by
  intro ts
  induction ts with
  | nil => simp [countBEv, countN]
  | cons u ts ih =>
    rw [List.flatMap_cons, countBEv_append, ih, countBEv_attempt_stepEvents]
    by_cases h : u = v <;> simp [countN, List.filter_cons, h] <;> omega

theorem countBEv_delivered_stepEvents (o : Nat → BOutcome) (uid u : Nat) (d : Nat)
    (h : o uid = BOutcome.floodWait d) :
    countBEv (BEvent.delivered uid) (stepEvents o u) = 0 := by
  by_cases huv : u = uid
  · subst huv
    simp [stepEvents, h, countBEv]
  · unfold stepEvents
    cases o u <;> simp [countBEv, Ne.symm huv, huv]

theorem countBEv_delivered_flatMap (o : Nat → BOutcome) (uid : Nat) (d : Nat)
    (h : o uid = BOutcome.floodWait d) :
    ∀ ts : List Nat, countBEv (BEvent.delivered uid) (ts.flatMap (stepEvents o)) = 0 := by
  intro ts
  induction ts with
  | nil => simp [countBEv]
  | cons u ts ih =>
    rw [List.flatMap_cons, countBEv_append, ih, countBEv_delivered_stepEvents o uid u d h]

theorem flatMap_mem_split {α β : Type} (f : α → List β) :
    ∀ (l : List α) (x : α), x ∈ l → ∃ pre post, l.flatMap f = pre ++ f x ++ post := by
  intro l
  induction l with
  | nil => intro x hx; simp at hx
  | cons a l ih =>
    intro x hx
    rcases List.mem_cons.mp hx with h | h
    · subst h
      exact ⟨[], l.flatMap f, by simp⟩
    · obtain ⟨pre, post, hp⟩ := ih x h
      exact ⟨f a ++ pre, post, by simp [hp]⟩

/-- **C3.** Broadcast classification: for every population and delivery
oracle, the success counter counts exactly the successful targets, the
removed counter exactly the recipient-unreachable targets, and the
failed counter exactly the unreachable-or-other-error targets (each
unreachable target bumps both); the user directory afterwards is the
original minus exactly the unreachable targets; filters and groups are
untouched and the stats change only by the single final
`total_broadcasts` bump — so recipient-unreachable is the only outcome
class that mutates the directory.  On the concrete population of 10
users with targets 3 and 7 unreachable and the rest succeeding, the
tally is success=8, failed=2, removed=2 and the directory holds exactly
the 8 other users. -/
theorem C3_broadcast_classification :
    (∀ (s : Storage) (o : Nat → BOutcome),
      (broadcastRun s o).success_count
          = ((get_all_users s).filter (fun u => isSuccessB (o u))).length
      ∧ (broadcastRun s o).removed_count
          = ((get_all_users s).filter (fun u => isBlockedB (o u))).length
      ∧ (broadcastRun s o).failed_count
          = ((get_all_users s).filter (fun u => countsFailed (o u))).length
      ∧ (broadcastRun s o).storage.local_users
          = s.local_users.filter
              (fun p => !(decide (p.1 ∈ get_all_users s) && isBlockedB (o p.1)))
      ∧ (broadcastRun s o).storage.local_filters = s.local_filters
      ∧ (broadcastRun s o).storage.local_groups = s.local_groups
      ∧ (broadcastRun s o).storage.local_stats
          = setAssoc s.local_stats "total_broadcasts"
              ((lookupA s.local_stats "total_broadcasts").getD 0 + 1))
    ∧ ((broadcastRun s10 o10).success_count = 8
      ∧ (broadcastRun s10 o10).failed_count = 2
      ∧ (broadcastRun s10 o10).removed_count = 2
      ∧ (broadcastRun s10 o10).storage.local_users.map Prod.fst
          = [1, 2, 4, 5, 6, 8, 9, 10]) := by
  constructor
  · intro s o
    exact ⟨broadcastRun_success s o, broadcastRun_removed s o, broadcastRun_failed s o,
      broadcastRun_local_users s o, broadcastRun_local_filters s o,
      broadcastRun_local_groups s o, broadcastRun_local_stats s o⟩
  · exact ⟨by decide, by decide, by decide, by decide⟩

/-- **C1 counterexample.** With 6 targets and a simulated rate limit on
target 5, the engine attempts target 5 exactly once, never delivers to
it (while target 6 is delivered), and finishes with only 5 successes —
the run is suspended for the provider duration but the rate-limited
target is then skipped, not retried. -/
theorem C1_counterexample :
    countBEv (BEvent.attempt 5) (broadcastRun s6 o6).events = 1
    ∧ countBEv (BEvent.delivered 5) (broadcastRun s6 o6).events = 0
    ∧ countBEv (BEvent.delivered 6) (broadcastRun s6 o6).events = 1
    ∧ (broadcastRun s6 o6).success_count = 5 := by
  refine ⟨by decide, by decide, by decide, by decide⟩

/-- **C1 (amended).** A rate-limited target suspends the run for the
provider-specified duration (the pause immediately follows its single
attempt) and the engine then proceeds to the remaining targets without
retrying it: every target is attempted exactly as often as it occurs in
the snapshot, the rate-limited target is never delivered to, and it is
counted neither as failed nor as removed. -/
theorem C1_rate_limit_behavior (s : Storage) (o : Nat → BOutcome) (uid d : Nat)
    (h : o uid = BOutcome.floodWait d) (hmem : uid ∈ get_all_users s) :
    (∃ pre post,
        (broadcastRun s o).events = pre ++ [BEvent.attempt uid, BEvent.pause d] ++ post)
    ∧ countBEv (BEvent.delivered uid) (broadcastRun s o).events = 0
    ∧ (∀ v : Nat,
        countBEv (BEvent.attempt v) (broadcastRun s o).events = countN v (get_all_users s))
    ∧ (broadcastRun s o).failed_count
        = ((get_all_users s).filter (fun u => countsFailed (o u))).length
    ∧ countsFailed (o uid) = false
    ∧ (broadcastRun s o).removed_count
        = ((get_all_users s).filter (fun u => isBlockedB (o u))).length
    ∧ isBlockedB (o uid) = false := by
  refine ⟨?_, ?_, ?_, broadcastRun_failed s o, by simp [h, countsFailed],
    broadcastRun_removed s o, by simp [h, isBlockedB]⟩
  · obtain ⟨pre, post, hp⟩ := flatMap_mem_split (stepEvents o) (get_all_users s) uid hmem
    refine ⟨pre, post, ?_⟩
    rw [broadcastRun_events, hp]
    simp [stepEvents, h]
  · rw [broadcastRun_events]
    exact countBEv_delivered_flatMap o uid d h (get_all_users s)
  · intro v
    rw [broadcastRun_events]
    exact countBEv_attempt_flatMap o v (get_all_users s)

/-- Witness for C1 (amended) at a concrete input: in the 6-user
population with a 30-second rate limit on target 5, the pause follows
the single attempt of target 5, target 5 is never delivered to, target
6 is attempted exactly once, and target 5 counts neither as failed nor
as removed. -/
theorem C1_rate_limit_behavior_witness :
    (o6 5 = BOutcome.floodWait 30)
    ∧ 5 ∈ get_all_users s6
    ∧ ((∃ pre post,
          (broadcastRun s6 o6).events = pre ++ [BEvent.attempt 5, BEvent.pause 30] ++ post)
      ∧ countBEv (BEvent.delivered 5) (broadcastRun s6 o6).events = 0
      ∧ (∀ v : Nat,
          countBEv (BEvent.attempt v) (broadcastRun s6 o6).events = countN v (get_all_users s6))
      ∧ (broadcastRun s6 o6).failed_count
          = ((get_all_users s6).filter (fun u => countsFailed (o6 u))).length
      ∧ countsFailed (o6 5) = false
      ∧ (broadcastRun s6 o6).removed_count
          = ((get_all_users s6).filter (fun u => isBlockedB (o6 u))).length
      ∧ isBlockedB (o6 5) = false) :=
  ⟨by decide, by decide, C1_rate_limit_behavior s6 o6 5 30 (by decide) (by decide)⟩

end FilterBot
